import Mathlib

/-!
Verification of the ElegooNeptuneThumbnails-Prusa post-processing script
(`elegoo_neptune_thumbnails.py`) against its natural-language specification.

The script's own computations (pixel packing, hex rendering, the three block
serializers, the idempotence guard, stream scanning for the thumbnail block and
the printer-model declaration, and the top-level run) are embedded directly
from the source.  The external capabilities the script delegates to (Qt image
scaling and pixel sampling, the `lib_col_pic.ColPic_EncodeStr` run-length
codec, Qt JPEG encoding plus base64, `base64.decodebytes`, and PNG loading)
are modelled as parameters collected in an `Externals` record, exactly as the
specification declares them out of scope.
-/

namespace ENT

/-- Python string slicing `s[a:b]` for `0 ≤ a ≤ b` (clamping at both ends). -/
def sliceStr (s : String) (a b : Nat) : String :=
  String.mk ((s.data.drop a).take (b - a))

/-- Concatenation of a list of strings, used to state row/chunk decompositions. -/
def strJoin : List String → String
  | [] => ""
  | s :: rest => s ++ strJoin rest

/-- 5-6-5 pixel packing from the per-pixel loops of `_parse_thumbnail_old` and
`_parse_thumbnail_new`: `rgb = ((red >> 3) << 11) | ((green >> 2) << 5) | (blue >> 3)`. -/
def pack565 (r g b : Nat) : Nat :=
  ((r >>> 3) <<< 11) ||| ((g >>> 2) <<< 5) ||| (b >>> 3)

/-- A lower-case hexadecimal digit, as produced by Python's `"%x"` formatting. -/
def hexDig (n : Nat) : Char :=
  if n < 10 then Char.ofNat (48 + n) else Char.ofNat (87 + n)

/-- Python's `"%x" % n` (minimal number of lower-case hex digits) for the
16-bit range: the definition agrees with `"%x"` for every `n < 0x10000`, which
covers every value produced by `pack565` on 8-bit channels. -/
def toHexRaw (n : Nat) : String :=
  if n < 16 then String.mk [hexDig n]
  else if n < 256 then String.mk [hexDig (n / 16), hexDig (n % 16)]
  else if n < 4096 then String.mk [hexDig (n / 256), hexDig (n / 16 % 16), hexDig (n % 16)]
  else String.mk [hexDig (n / 4096), hexDig (n / 256 % 16), hexDig (n / 16 % 16), hexDig (n % 16)]

/-- The zero-padding of `str_hex` in `_parse_thumbnail_old`
(`if len(str_hex) == 3: str_hex = '0' + str_hex[0:3]`, and so on). -/
def padHex (s : String) : String :=
  if s.length = 3 then "0" ++ sliceStr s 0 3
  else if s.length = 2 then "00" ++ sliceStr s 0 2
  else if s.length = 1 then "000" ++ sliceStr s 0 1
  else s

/-- Per-pixel hex emission of `_parse_thumbnail_old`: the low-byte digits
`str_hex[2:4]` followed by the high-byte digits `str_hex[0:2]`, each append
guarded by the source's emptiness test.  (The source also keeps a `datasize`
counter alongside these appends; it only ever resets itself and influences no
output, so it has no observable effect to embed.) -/
def pixHexLE (rgb : Nat) : String :=
  let strHex := padHex (toHexRaw rgb)
  (if sliceStr strHex 2 4 ≠ "" then sliceStr strHex 2 4 else "")
    ++ (if sliceStr strHex 0 2 ≠ "" then sliceStr strHex 0 2 else "")

/-- A decoded raster image: dimensions plus RGB8 pixel sampling.  `pix x y`
stands for `QImage.pixelColor(x, y)` with its `.red()/.green()/.blue()`
channels, which are always in `[0, 255]`. -/
structure QImage where
  width : Nat
  height : Nat
  pix : Nat → Nat → Fin 256 × Fin 256 × Fin 256

/-- The external capabilities the script delegates to:
* `scaled img w h` — `img.scaled(w, h, KeepAspectRatio)`;
* `encodeStr color16 h w bufLen maxPerLine` — `lib_col_pic.ColPic_EncodeStr`,
  returning the final contents of the pre-allocated `output_data` buffer;
* `jpegBase64 img` — JPEG encoding of `img` followed by base64
  (`byte_array.toBase64()` as a string);
* `decodeB64 s` — `base64.decodebytes`;
* `loadImage bs` — `QImage(); loadFromData(bs, "PNG")`. -/
structure Externals where
  scaled : QImage → Nat → Nat → QImage
  encodeStr : List Nat → Nat → Nat → Nat → Nat → List Nat
  jpegBase64 : QImage → String
  decodeB64 : String → List Nat
  loadImage : List Nat → QImage

/-- The packed 16-bit word of one sampled pixel. -/
def packPixel (p : Fin 256 × Fin 256 × Fin 256) : Nat :=
  pack565 p.1.val p.2.1.val p.2.2.val

/-- One row of `_parse_thumbnail_old`'s pixel loop (`for j in range(width)`). -/
def oldRow (b : QImage) (i : Nat) : String :=
  strJoin ((List.range b.width).map (fun j => pixHexLE (packPixel (b.pix j i))))

/-- The full row loop of `_parse_thumbnail_old`: after every row the literal
`"\rM10086 ;"` is appended, and after the last row an additional `"\r"`. -/
def oldRows (b : QImage) : String :=
  strJoin ((List.range b.height).map (fun i =>
    oldRow b i ++ "\rM10086 ;" ++ (if i = b.height - 1 then "\r" else "")))

/-- `_parse_thumbnail_old`: tag `";" + img_type + ":"` once, then the rows. -/
def parseThumbnailOld (ext : Externals) (img : QImage) (width height : Nat)
    (imgType : String) : String :=
  let tag := ";" ++ imgType ++ ":"
  let b := ext.scaled img width height
  tag ++ oldRows b

/-- `each_max = 1024 - 8 - 1` from `_parse_thumbnail_new` / `_parse_thumbnail_b64jpg`. -/
def eachMax : Nat := 1024 - 8 - 1

/-- The shared char-emission loop of `_parse_thumbnail_new` (over the nonzero
buffer bytes) and `_parse_thumbnail_b64jpg` (over the base64 characters): `j`
is the running count of emitted payload characters, and the three guarded
branches re-emit the tag at the line boundaries. -/
def emitChunks (tag : String) (maxLine : Nat) : Nat → List Char → String
  | _, [] => ""
  | j, ch :: rest =>
    (if j = maxLine * eachMax then "\r;" ++ tag ++ String.mk [ch]
     else if j = 0 then tag ++ String.mk [ch]
     else if j % eachMax = 0 then "\r" ++ tag ++ String.mk [ch]
     else String.mk [ch]) ++ emitChunks tag maxLine (j + 1) rest

/-- One byte of CPython's `bytearray` repr, given the code of the chosen quote
character `q`: backslash and the quote are backslash-escaped, `\t`, `\n`, `\r`
get short escapes, other printable ASCII is literal, and everything else
becomes a four-character `\xhh` escape. -/
def pyByteEsc (q : Nat) (b : Nat) : List Char :=
  if b = 92 then [Char.ofNat 92, Char.ofNat 92]
  else if b = q then [Char.ofNat 92, Char.ofNat q]
  else if b = 9 then [Char.ofNat 92, 't']
  else if b = 10 then [Char.ofNat 92, 'n']
  else if b = 13 then [Char.ofNat 92, 'r']
  else if 32 ≤ b ∧ b ≤ 126 then [Char.ofNat b]
  else [Char.ofNat 92, 'x', hexDig (b / 16 % 16), hexDig (b % 16)]

/-- CPython's `str(bytearray(bs))`: the `bytearray(b…)` wrapper around the
escaped bytes, with the quote character chosen as in `bytearray_repr` (a double
quote when the bytes contain a single quote but no double quote). -/
def pyBytearrayRepr (bs : List Nat) : List Char :=
  let q : Nat := if 39 ∈ bs ∧ ¬ 34 ∈ bs then 34 else 39
  "bytearray(b".data ++ [Char.ofNat q] ++ (bs.map (pyByteEsc q)).flatten ++ [Char.ofNat q, ')']

/-- Python's `.replace('\\x00', '')` on the repr string: removes the leftmost
non-overlapping occurrences of the four characters `\`, `x`, `0`, `0`. -/
def replaceX00 : List Char → List Char
  | '\\' :: 'x' :: '0' :: '0' :: rest => replaceX00 rest
  | c :: rest => c :: replaceX00 rest
  | [] => []

/-- `data1` of `_parse_thumbnail_new`: `data0 = str(output_data).replace('\\x00', '')`
followed by `data1 = data0[2:len(data0) - 2]`. -/
def pyData1 (out : List Nat) : List Char :=
  let data0 := replaceX00 (pyBytearrayRepr out)
  (data0.drop 2).take (data0.length - 4)

/-- The flat row-major `color16` array built by `_parse_thumbnail_new`. -/
def colorWords (b : QImage) : List Nat :=
  ((List.range b.height).map (fun i =>
    (List.range b.width).map (fun j => packPixel (b.pix j i)))).flatten

/-- The `output_data` buffer after the external
`ColPic_EncodeStr(color16, height, width, output_data, height*width*10, 1024)` call. -/
def newOutputData (ext : Externals) (b : QImage) : List Nat :=
  ext.encodeStr (colorWords b) b.height b.width (b.height * b.width * 10) 1024

/-- The payload characters of `_parse_thumbnail_new`'s output loop: `chr(output_data[i])`
for the nonzero bytes, in buffer order. -/
def newPayloadChars (out : List Nat) : List Char :=
  (out.filter (fun x => x != 0)).map (fun x => Char.ofNat x)

/-- `_parse_thumbnail_new`: ColPic-encode, compute `max_line` and `append_len`
from `len(data1)`, emit the wrapped nonzero bytes, then `"\r;"`, `append_len`
zero characters, and a final `"\r"`.  (`append_len` is computed in `Int` and
converted, mirroring Python's exact `each_max - 3 - len(data1) % each_max + 10`
without natural-number truncation.) -/
def parseThumbnailNew (ext : Externals) (img : QImage) (width height : Nat)
    (imgType : String) : String :=
  let tag := ";" ++ imgType ++ ":"
  let b := ext.scaled img width height
  let out := newOutputData ext b
  let data1 := pyData1 out
  let maxLine := data1.length / eachMax
  let appendLen := ((eachMax : Int) - 3 - ((data1.length % eachMax : Nat) : Int) + 10).toNat
  emitChunks tag maxLine 0 (newPayloadChars out)
    ++ "\r;" ++ String.mk (List.replicate appendLen (Char.ofNat 48)) ++ "\r"

/-- `_parse_thumbnail_b64jpg`: JPEG-encode to a base64 string, then emit its
characters through the same line-wrapping loop (indexing every character), and
a final `"\r"`. -/
def parseThumbnailB64jpg (ext : Externals) (img : QImage) (width height : Nat)
    (imgType : String) : String :=
  let tag := ";" ++ imgType ++ ":"
  let b := ext.scaled img width height
  let s := ext.jpegBase64 b
  let maxLine := s.length / eachMax
  emitChunks tag maxLine 0 s.data ++ "\r"

def OLD_MODELS : List String := ["NEPTUNE2", "NEPTUNE2D", "NEPTUNE2S", "NEPTUNEX"]

def NEW_MODELS : List String :=
  ["NEPTUNE4", "NEPTUNE4PRO", "NEPTUNE4PLUS", "NEPTUNE4MAX",
   "NEPTUNE3PRO", "NEPTUNE3PLUS", "NEPTUNE3MAX"]

def B64JPG_MODELS : List String := ["ORANGESTORMGIGA"]

/-- `OLD_MODELS + NEW_MODELS + B64JPG_MODELS`, as concatenated in `__init__`. -/
def allModels : List String := OLD_MODELS ++ NEW_MODELS ++ B64JPG_MODELS

/-- `is_supported_printer`: the disjunction of the three membership tests. -/
def isSupportedPrinter (m : String) : Bool :=
  decide (m ∈ OLD_MODELS) || decide (m ∈ NEW_MODELS) || decide (m ∈ B64JPG_MODELS)

/-- The identification comment appended by `_generate_gcode_prefix` whenever the
prefix is nonempty. -/
def idComment : String :=
  ";Thumbnail generated by the ElegooNeptuneThumbnails-Prusa post processing script (https://github.com/Molodos/ElegooNeptuneThumbnails-Prusa)\r;Just mentioning \"Cura_SteamEngine X.X\" to trick printer into thinking this is Cura and not Prusa gcode\r\r"

/-- `_generate_gcode_prefix`: two encoder calls depending on the model group
(note the source passes the tag name `";gimage"` — with a semicolon — to the
second Legacy call), then the identification comment if anything was produced. -/
def generateGcodePrefix (ext : Externals) (model : String) (thumb : QImage) : String :=
  let p :=
    if model ∈ OLD_MODELS then
      parseThumbnailOld ext thumb 100 100 "simage" ++ parseThumbnailOld ext thumb 200 200 ";gimage"
    else if model ∈ NEW_MODELS then
      parseThumbnailNew ext thumb 200 200 "gimage" ++ parseThumbnailNew ext thumb 160 160 "simage"
    else if model ∈ B64JPG_MODELS then
      parseThumbnailB64jpg ext thumb 400 400 "gimage" ++ parseThumbnailB64jpg ext thumb 114 114 "simage"
    else ""
  if p ≠ "" then p ++ idComment else p

def slicerPat : List Char := "PrusaSlicer".data

def slicerRepl : List Char := "CensoredSlicer".data

/-- Python's `g_code.replace("PrusaSlicer", "CensoredSlicer")`: leftmost
non-overlapping replacement.  The fuel argument (one unit per loop step, so the
list length suffices) keeps the recursion structural. -/
def censorAux : Nat → List Char → List Char
  | 0, l => l
  | _ + 1, [] => []
  | fuel + 1, c :: rest =>
    if slicerPat.isPrefixOf (c :: rest) then
      slicerRepl ++ censorAux fuel ((c :: rest).drop slicerPat.length)
    else c :: censorAux fuel rest

def censorSlicer (l : List Char) : List Char := censorAux l.length l

/-- Python's substring test `pat in s`. -/
def infixCheck (p : List Char) : List Char → Bool
  | [] => p.isEmpty
  | c :: rest => p.isPrefixOf (c :: rest) || infixCheck p rest

/-- `add_thumbnail_prefix`, as a function from the current file content to the
file content after the call: read, censor the slicer name, and either write
`gcode_prefix + g_code` or — when one of the two markers is already present in
the censored text — leave the file untouched. -/
def addThumbnailPrefix (gcodePre : String) (content : String) : String :=
  let g := String.mk (censorSlicer content.data)
  if infixCheck ";gimage:".data g.data = false ∧ infixCheck ";simage:".data g.data = false
  then gcodePre ++ g else content

def beginMarker : List Char := "; thumbnail begin 600x600".data

def endMarker : List Char := "; thumbnail end".data

/-- The per-line loop of `_get_base64_thumbnail`: `found` starts `False`; a line
whose text starts with the begin marker (only checked while `not found`) opens
the block; once open, a line equal to the end marker returns the accumulator,
and every other line contributes `line[2:]`. -/
def getB64Go : Bool → List Char → List (List Char) → Option (List Char)
  | _, _, [] => none
  | found, acc, line :: rest =>
    if found = false ∧ beginMarker.isPrefixOf line then getB64Go true acc rest
    else if found = true ∧ line = endMarker then some acc
    else if found = true then getB64Go true (acc ++ line.drop 2) rest
    else getB64Go false acc rest

/-- `_get_base64_thumbnail` over the split lines of the file; `none` models the
`"Correct size thumbnail is not present"` exception. -/
def getBase64Thumbnail (lines : List (List Char)) : Option (List Char) :=
  getB64Go false [] lines

/-- The line-break characters of Python's `str.splitlines`. -/
def lineBreakChars : List Char :=
  ['\n', '\r', Char.ofNat 11, Char.ofNat 12, Char.ofNat 28, Char.ofNat 29,
   Char.ofNat 30, Char.ofNat 133, Char.ofNat 8232, Char.ofNat 8233]

/-- `str.splitlines`, accumulating the current line in reverse: every break
character ends a line, `"\r\n"` counts as a single break, and a trailing
fragment without a break is a final line. -/
def pySplitAux : List Char → List Char → List (List Char)
  | [], acc => if acc.isEmpty then [] else [acc.reverse]
  | '\r' :: '\n' :: rest, acc => acc.reverse :: pySplitAux rest []
  | c :: rest, acc =>
    if c ∈ lineBreakChars then acc.reverse :: pySplitAux rest []
    else pySplitAux rest (c :: acc)

def pySplitlines (l : List Char) : List (List Char) := pySplitAux l []

def printerModelPre : List Char := "; printer_model = ".data

/-- The two fatal failures of the script (`Exception(...)` in the source,
distinguished here by their messages as the specification's error kinds do). -/
inductive ScriptErr where
  | thumbnailNotFound
  | printerModelNotFound
deriving DecidableEq

/-- `_get_printer_model`: the first line starting with `"; printer_model = "`
yields the rest of that line; otherwise the `"Printer model not found"` error. -/
def getPrinterModel : List (List Char) → Except ScriptErr (List Char)
  | [] => .error .printerModelNotFound
  | line :: rest =>
    if printerModelPre.isPrefixOf line then .ok (line.drop printerModelPre.length)
    else getPrinterModel rest

/-- The model-resolution step of `__init__`: keep the command-line model when it
is nonempty and recognized, otherwise scan the file. -/
def resolvePrinterModel (explicitModel : String) (lines : List (List Char)) :
    Except ScriptErr String :=
  if explicitModel ≠ "" ∧ explicitModel ∈ allModels then .ok explicitModel
  else (getPrinterModel lines).map String.mk

/-- The whole run of the script on one file content (`__main__` plus `__init__`):
extract the thumbnail (fatal if absent), resolve the model (fatal if
unresolvable), then — only for supported printers — rewrite the file through
`add_thumbnail_prefix`. -/
def runScript (ext : Externals) (explicitModel : String) (content : String) :
    Except ScriptErr String :=
  match getBase64Thumbnail (pySplitlines content.data) with
  | none => .error .thumbnailNotFound
  | some b64 =>
    let thumb := ext.loadImage (ext.decodeB64 (String.mk b64))
    match resolvePrinterModel explicitModel (pySplitlines content.data) with
    | .error e => .error e
    | .ok model =>
      if isSupportedPrinter model then
        .ok (addThumbnailPrefix (generateGcodePrefix ext model thumb) content)
      else .ok content

/-- The file content after a run: fatal errors abort before any write, so the
content is unchanged in the error case. -/
def runFile (ext : Externals) (explicitModel : String) (content : String) : String :=
  match runScript ext explicitModel content with
  | .ok s => s
  | .error _ => content

/-! ### Specification-side forms used to state the claims -/

/-- The two low-byte hex digits of a 16-bit word (emitted first by the Legacy
encoder). -/
def lowByteHex (v : Nat) : String := String.mk [hexDig (v / 16 % 16), hexDig (v % 16)]

/-- The two high-byte hex digits of a 16-bit word (emitted second). -/
def highByteHex (v : Nat) : String := String.mk [hexDig (v / 4096), hexDig (v / 256 % 16)]

/-- Number of `eachMax`-sized chunks covering `n` payload characters. -/
def numChunks (n : Nat) : Nat := (n + (eachMax - 1)) / eachMax

/-- The `k`-th `eachMax`-sized chunk of the payload. -/
def chunkAt (payload : List Char) (k : Nat) : List Char :=
  (payload.drop (k * eachMax)).take eachMax

/-- The line prefix re-emitted before the `k`-th chunk's tag: nothing before
chunk 0 when `maxLine > 0`, `"\r;"` before chunk 0 when `maxLine = 0`, `"\r;"`
before chunk `maxLine`, plain `"\r"` before every other chunk. -/
def chunkPre (maxLine k : Nat) : String :=
  if k = 0 then (if maxLine = 0 then "\r;" else "")
  else if k = maxLine then "\r;" else "\r"

/-- The chunked decomposition of the wrapped payload: one tag-headed line per
chunk, each chunk at most `eachMax` characters. -/
def chunkedJoin (tag : String) (maxLine : Nat) (payload : List Char) : String :=
  strJoin ((List.range (numChunks payload.length)).map (fun k =>
    chunkPre maxLine k ++ tag ++ String.mk (chunkAt payload k)))

/-! ### Concrete instances used by witnesses and counterexamples -/

/-- An empty image (the external `scaled` of the concrete instances below is
constant, so every encoder output is independent of the input image). -/
def img0 : QImage := ⟨0, 0, fun _ _ => (0, 0, 0)⟩

/-- Concrete externals: scaling collapses to the empty image, the ColPic codec
returns a single `A` byte, the JPEG/base64 encoder returns `"A"`. -/
def ext0 : Externals :=
  ⟨fun _ _ _ => img0, fun _ _ _ _ _ => [65], fun _ => "A", fun _ => [], fun _ => img0⟩

/-- A stream with a thumbnail block but no printer-model declaration line. -/
def cNoDecl : String := "; thumbnail begin 600x600\n;;QUFB\n; thumbnail end\nG1 X0\n"

/-- A stream with a thumbnail block and an unrecognized printer-model declaration. -/
def cWeird : String :=
  "; thumbnail begin 600x600\n;;QUFB\n; thumbnail end\n; printer_model = WEIRD\nG1 X0\n"

/-! ### Formal renderings of the claims that fail on the code -/

/-- Claim C2 as stated: an explicit printer-model override outside the three
known groups never makes the run fail; encoding is skipped and the file is left
unchanged with a successful exit. -/
def C2Claim : Prop :=
  ∀ (ext : Externals) (em c : String), em ≠ "" → ¬ em ∈ allModels →
    runScript ext em c = Except.ok c

/-- Claim C3 as stated: for a Legacy-group request the prefix consists of the
100×100 block, the 200×200 block and the identification comment, the first
block's tag being exactly `";simage:"` and the second block's tag being exactly
`";gimage:"` (one semicolon, the tag name, a colon) at the start of the block. -/
def C3Claim : Prop :=
  ∀ (ext : Externals) (thumb : QImage) (m : String), m ∈ OLD_MODELS →
    generateGcodePrefix ext m thumb
      = parseThumbnailOld ext thumb 100 100 "simage"
          ++ parseThumbnailOld ext thumb 200 200 ";gimage" ++ idComment
    ∧ ";simage:".data.isPrefixOf (parseThumbnailOld ext thumb 100 100 "simage").data = true
    ∧ ";gimage:".data.isPrefixOf (parseThumbnailOld ext thumb 200 200 ";gimage").data = true

/-- Claim C4 as stated (the part the code violates): in the output of the ColPic
and base64-JPEG chunk encoders, the very first character of the block is the
tag, with no leading line break. -/
def C4Claim : Prop :=
  ∀ (ext : Externals) (img : QImage) (w h : Nat) (t : String),
    (";" ++ t ++ ":").data.isPrefixOf (parseThumbnailNew ext img w h t).data = true
    ∧ (";" ++ t ++ ":").data.isPrefixOf (parseThumbnailB64jpg ext img w h t).data = true

/-- Claim C8 as stated: whenever injection proceeds (the marker guard passes),
everything after the generated prefix is exactly the original stream content. -/
def C8Claim : Prop :=
  ∀ (pre c : String),
    infixCheck ";gimage:".data (censorSlicer c.data) = false →
    infixCheck ";simage:".data (censorSlicer c.data) = false →
    addThumbnailPrefix pre c = pre ++ c

/-- Claim C9 as stated: the ColPic block ends with `"\r;"`, then
`each_max - 3 - (len(payload) % each_max) + 10` zero characters — where
`payload` is the serialized nonzero-byte payload — then one final `"\r"`. -/
def C9Claim : Prop :=
  ∀ (ext : Externals) (img : QImage) (w h : Nat) (t : String),
    ("\r;" ++ String.mk (List.replicate
        (eachMax - 3 - ((newPayloadChars (newOutputData ext (ext.scaled img w h))).length % eachMax) + 10)
        (Char.ofNat 48)) ++ "\r").data.isSuffixOf
      (parseThumbnailNew ext img w h t).data = true

/-! ### Generic string helpers -/

theorem mk_append (a b : List Char) : String.mk a ++ String.mk b = String.mk (a ++ b) := rfl

theorem data_mk (a : List Char) : (String.mk a).data = a := rfl

theorem ne_empty_of_data_ne_nil {s : String} (h : s.data ≠ []) : s ≠ "" := by
  intro he
  exact h (by rw [he])

/-! ### Pixel packing (C5) and the Legacy hex rendering (C6) -/

theorem pack565_lt (r g b : Nat) (hr : r < 256) (hg : g < 256) (hb : b < 256) :
    pack565 r g b < 65536 := by
  have h1 : r >>> 3 < 32 := by rw [Nat.shiftRight_eq_div_pow]; omega
  have h2 : g >>> 2 < 64 := by rw [Nat.shiftRight_eq_div_pow]; omega
  have h3 : b >>> 3 < 32 := by rw [Nat.shiftRight_eq_div_pow]; omega
  have e1 : (r >>> 3) <<< 11 < 2 ^ 16 := by rw [Nat.shiftLeft_eq]; omega
  have e2 : (g >>> 2) <<< 5 < 2 ^ 16 := by rw [Nat.shiftLeft_eq]; omega
  have e3 : b >>> 3 < 2 ^ 16 := by omega
  have : pack565 r g b < 2 ^ 16 :=
    Nat.or_lt_two_pow (Nat.or_lt_two_pow e1 e2) e3
  omega

theorem packPixel_lt (p : Fin 256 × Fin 256 × Fin 256) : packPixel p < 65536 :=
  pack565_lt _ _ _ p.1.isLt p.2.1.isLt p.2.2.isLt

theorem padHex_one (x : Char) : padHex (String.mk [x]) = String.mk ['0', '0', '0', x] := rfl

theorem padHex_two (x y : Char) :
    padHex (String.mk [x, y]) = String.mk ['0', '0', x, y] := rfl

theorem padHex_three (x y z : Char) :
    padHex (String.mk [x, y, z]) = String.mk ['0', x, y, z] := rfl

theorem padHex_four (x y z w : Char) :
    padHex (String.mk [x, y, z, w]) = String.mk [x, y, z, w] := rfl

theorem hexDig_zero : hexDig 0 = '0' := rfl

/-- `str_hex` after padding always consists of the four base-16 digits of the
packed word (most significant first). -/
theorem padHex_toHexRaw (v : Nat) (hv : v < 65536) :
    padHex (toHexRaw v)
      = String.mk [hexDig (v / 4096), hexDig (v / 256 % 16), hexDig (v / 16 % 16), hexDig (v % 16)] := by
  unfold toHexRaw
  rcases Nat.lt_or_ge v 16 with h16 | h16
  · rw [if_pos h16, padHex_one]
    have e1 : v / 4096 = 0 := by omega
    have e2 : v / 256 % 16 = 0 := by omega
    have e3 : v / 16 % 16 = 0 := by omega
    have e4 : v % 16 = v := by omega
    rw [e1, e2, e3, e4, hexDig_zero]
  · rcases Nat.lt_or_ge v 256 with h256 | h256
    · rw [if_neg (by omega), if_pos h256, padHex_two]
      have e1 : v / 4096 = 0 := by omega
      have e2 : v / 256 % 16 = 0 := by omega
      have e3 : v / 16 % 16 = v / 16 := by omega
      rw [e1, e2, e3, hexDig_zero]
    · rcases Nat.lt_or_ge v 4096 with h4096 | h4096
      · rw [if_neg (by omega), if_neg (by omega), if_pos h4096, padHex_three]
        have e1 : v / 4096 = 0 := by omega
        have e2 : v / 256 % 16 = v / 256 := by omega
        rw [e1, e2, hexDig_zero]
      · rw [if_neg (by omega), if_neg (by omega), if_neg (by omega), padHex_four]

/-- The per-pixel emission is exactly four hex digits: the two low-byte digits
(`str_hex[2:4]`) followed by the two high-byte digits (`str_hex[0:2]`). -/
theorem pixHexLE_eq (v : Nat) (hv : v < 65536) :
    pixHexLE v = lowByteHex v ++ highByteHex v := by
  unfold pixHexLE
  rw [padHex_toHexRaw v hv]
  show (if String.mk [hexDig (v / 16 % 16), hexDig (v % 16)] ≠ "" then
          String.mk [hexDig (v / 16 % 16), hexDig (v % 16)] else "")
      ++ (if String.mk [hexDig (v / 4096), hexDig (v / 256 % 16)] ≠ "" then
          String.mk [hexDig (v / 4096), hexDig (v / 256 % 16)] else "")
      = lowByteHex v ++ highByteHex v
  rw [if_pos (ne_empty_of_data_ne_nil (by simp [data_mk]))]
  rw [if_pos (ne_empty_of_data_ne_nil (by simp [data_mk]))]
  rfl

theorem pixHex_packPixel (p : Fin 256 × Fin 256 × Fin 256) :
    pixHexLE (packPixel p) = lowByteHex (packPixel p) ++ highByteHex (packPixel p) :=
  pixHexLE_eq _ (packPixel_lt p)

/-- **C5.**  The pixel-packing operation computes exactly
`(r>>3)<<11 | (g>>2)<<5 | (b>>3)`; on 8-bit channels the result is at most
`0xFFFF`; and the result depends only on the high bits of each channel (in
particular `pack 8 0 0 = pack 15 0 0`).  (The Lean embedding is a total
function, matching "pure, no failure modes".) -/
theorem claim_C5_pack_properties :
    (∀ r g b : Nat, pack565 r g b = ((r >>> 3) <<< 11) ||| ((g >>> 2) <<< 5) ||| (b >>> 3))
    ∧ (∀ r g b : Nat, r < 256 → g < 256 → b < 256 → pack565 r g b ≤ 0xFFFF)
    ∧ (∀ r g b r' g' b' : Nat, r >>> 3 = r' >>> 3 → g >>> 2 = g' >>> 2 → b >>> 3 = b' >>> 3 →
        pack565 r g b = pack565 r' g' b')
    ∧ pack565 8 0 0 = pack565 15 0 0 := by
  refine ⟨fun _ _ _ => rfl, fun r g b hr hg hb => ?_, fun r g b r' g' b' h1 h2 h3 => ?_, by decide⟩
  · have := pack565_lt r g b hr hg hb
    omega
  · unfold pack565
    rw [h1, h2, h3]

/-- Witness for C5 at concrete channel values. -/
theorem claim_C5_witness :
    pack565 255 255 255 ≤ 0xFFFF ∧ pack565 8 0 0 = pack565 15 0 0 :=
  ⟨claim_C5_pack_properties.2.1 255 255 255 (by decide) (by decide) (by decide),
   claim_C5_pack_properties.2.2.2⟩

/-- **C6.**  The Legacy encoder output is exactly: the tag, then for each of the
`H` rows (row-major) the pixels' four hex characters each — low-byte digits
before high-byte digits, nothing between pixels — then the row terminator
`"\rM10086 ;"` once per row, with one additional `"\r"` after the final row. -/
theorem claim_C6_legacy_encoding (ext : Externals) (img : QImage) (w h : Nat) (t : String) :
    parseThumbnailOld ext img w h t
      = (";" ++ t ++ ":")
        ++ strJoin ((List.range (ext.scaled img w h).height).map (fun i =>
             strJoin ((List.range (ext.scaled img w h).width).map (fun j =>
               lowByteHex (packPixel ((ext.scaled img w h).pix j i))
                 ++ highByteHex (packPixel ((ext.scaled img w h).pix j i))))
             ++ "\rM10086 ;"
             ++ (if i = (ext.scaled img w h).height - 1 then "\r" else ""))) := by
  unfold parseThumbnailOld oldRows oldRow
  simp only [pixHex_packPixel]

/-! ### The 1015-character line-wrapping loop (C4, C9) -/

theorem str_assoc (a b c : String) : a ++ b ++ c = a ++ (b ++ c) :=
  String.ext (by simp)

theorem data_empty : ("" : String).data = [] := rfl

theorem str_append_empty (s : String) : s ++ "" = s :=
  String.ext (by simp [data_empty])

theorem str_empty_append (s : String) : "" ++ s = s :=
  String.ext (by simp [data_empty])

theorem emit_cons (tag : String) (maxLine j : Nat) (c : Char) (rest : List Char) :
    emitChunks tag maxLine j (c :: rest)
      = (if j = maxLine * eachMax then "\r;" ++ tag ++ String.mk [c]
         else if j = 0 then tag ++ String.mk [c]
         else if j % eachMax = 0 then "\r" ++ tag ++ String.mk [c]
         else String.mk [c]) ++ emitChunks tag maxLine (j + 1) rest := rfl

theorem eachMax_eq : eachMax = 1015 := rfl

theorem strJoin_cons (s : String) (l : List String) : strJoin (s :: l) = s ++ strJoin l := rfl

/-- Inside a chunk (the payload count is not at a line boundary), the loop
copies characters verbatim until the next boundary. -/
theorem emitRun (tag : String) (maxLine : Nat) :
    ∀ (m : Nat) (L : List Char) (j : Nat), j % 1015 ≠ 0 → m + j % 1015 = 1015 →
      emitChunks tag maxLine j L
        = String.mk (L.take m) ++ emitChunks tag maxLine (j + min m L.length) (L.drop m) := by
  intro m
  induction m with
  | zero =>
    intro L j hj hm
    omega
  | succ m ih =>
    intro L j hj hm
    cases L with
    | nil =>
      show emitChunks tag maxLine j [] = String.mk [] ++ emitChunks tag maxLine (j + min (m + 1) 0) []
      rw [show emitChunks tag maxLine j [] = "" from rfl,
          show emitChunks tag maxLine (j + min (m + 1) 0) [] = "" from rfl,
          str_append_empty]
    | cons c rest =>
      have hj1 : ¬ (j = maxLine * eachMax) := by rw [eachMax_eq]; intro h; omega
      have hj0 : ¬ (j = 0) := by intro h; omega
      have hj2 : ¬ (j % eachMax = 0) := by rw [eachMax_eq]; exact hj
      rw [emit_cons, if_neg hj1, if_neg hj0, if_neg hj2]
      rw [List.take_succ_cons, List.drop_succ_cons]
      rw [show j + min (m + 1) ((c :: rest).length) = j + 1 + min m rest.length from by
        have hlen : (c :: rest).length = rest.length + 1 := rfl
        rw [hlen]; omega]
      by_cases hm0 : m = 0
      · subst hm0
        rw [show min 0 rest.length = 0 from by omega, Nat.add_zero, List.take_zero,
            List.drop_zero]
      · rw [ih rest (j + 1) (by omega) (by omega)]
        apply String.ext
        simp

theorem numChunks_zero : numChunks 0 = 0 := rfl

/-- The wrapped output decomposes into tag-headed chunks of at most `eachMax`
payload characters each. -/
theorem emitChunks_chunks (tag : String) (maxLine : Nat) :
    ∀ (n : Nat) (L : List Char), L.length = n → ∀ (k : Nat),
      emitChunks tag maxLine (k * 1015) L
        = strJoin ((List.range (numChunks L.length)).map (fun k' =>
            chunkPre maxLine (k + k') ++ tag ++ String.mk (chunkAt L k'))) := by
  intro n
  induction n using Nat.strong_induction_on with
  | _ n ih =>
    intro L hL k
    cases L with
    | nil =>
      rw [show (List.length ([] : List Char)) = 0 from rfl, numChunks_zero]
      rfl
    | cons c rest =>
      have hstep : emitChunks tag maxLine (k * 1015) (c :: rest)
          = (chunkPre maxLine k ++ tag ++ String.mk [c])
            ++ emitChunks tag maxLine (k * 1015 + 1) rest := by
        rw [emit_cons]
        by_cases hkm : k = maxLine
        · rw [if_pos (show k * 1015 = maxLine * eachMax from by rw [eachMax_eq, hkm])]
          rw [chunkPre]
          by_cases hk0 : k = 0
          · rw [if_pos hk0, if_pos (by omega)]
          · rw [if_neg hk0, if_pos hkm]
        · rw [if_neg (show ¬ (k * 1015 = maxLine * eachMax) from by
            rw [eachMax_eq]; intro h; exact hkm (by omega))]
          by_cases hk0 : k = 0
          · rw [if_pos (show k * 1015 = 0 from by rw [hk0, Nat.zero_mul])]
            rw [chunkPre, if_pos hk0, if_neg (by omega), str_empty_append]
          · rw [if_neg (show ¬ (k * 1015 = 0) from by intro h; exact hk0 (by omega))]
            rw [if_pos (show k * 1015 % eachMax = 0 from by rw [eachMax_eq]; omega)]
            rw [chunkPre, if_neg hk0, if_neg hkm]
      rw [hstep]
      rw [emitRun tag maxLine 1014 rest (k * 1015 + 1) (by omega) (by omega)]
      by_cases hlen : rest.length ≤ 1014
      · rw [List.drop_eq_nil_of_le hlen,
            show emitChunks tag maxLine (k * 1015 + 1 + min 1014 rest.length) [] = "" from rfl,
            str_append_empty, List.take_of_length_le hlen]
        have hnc : numChunks ((c :: rest).length) = 1 := by
          have hl : (c :: rest).length = rest.length + 1 := rfl
          rw [hl]
          simp only [numChunks, eachMax_eq]
          omega
        rw [hnc]
        rw [show List.range 1 = [0] from rfl, List.map_cons, List.map_nil, strJoin_cons,
            show strJoin [] = "" from rfl, str_append_empty, Nat.add_zero]
        rw [show chunkAt (c :: rest) 0 = c :: rest.take 1014 from by
          simp only [chunkAt, eachMax_eq, Nat.zero_mul, List.drop_zero]
          rw [show (1015 : Nat) = 1014 + 1 from rfl, List.take_succ_cons]]
        rw [List.take_of_length_le hlen]
        apply String.ext
        simp
      · rw [show min 1014 rest.length = 1014 from by omega]
        rw [show k * 1015 + 1 + 1014 = (k + 1) * 1015 from by omega]
        have hdl : (rest.drop 1014).length = rest.length - 1014 := by
          rw [List.length_drop]
        have hlt : rest.length - 1014 < n := by
          have hl : (c :: rest).length = rest.length + 1 := rfl
          rw [hl] at hL
          omega
        rw [ih (rest.length - 1014) hlt (rest.drop 1014) hdl (k + 1)]
        have hnc : numChunks ((c :: rest).length)
            = numChunks ((rest.drop 1014).length) + 1 := by
          have hl : (c :: rest).length = rest.length + 1 := rfl
          rw [hl, hdl]
          simp only [numChunks, eachMax_eq]
          omega
        rw [hnc, List.range_succ_eq_map, List.map_cons, List.map_map, strJoin_cons]
        have hmapeq : (List.range (numChunks ((rest.drop 1014).length))).map
              ((fun k' => chunkPre maxLine (k + k') ++ tag ++ String.mk (chunkAt (c :: rest) k')) ∘ Nat.succ)
            = (List.range (numChunks ((rest.drop 1014).length))).map
              (fun k' => chunkPre maxLine (k + 1 + k') ++ tag ++ String.mk (chunkAt (rest.drop 1014) k')) := by
          apply List.map_congr_left
          intro a _
          show chunkPre maxLine (k + (a + 1)) ++ tag ++ String.mk (chunkAt (c :: rest) (a + 1))
              = chunkPre maxLine (k + 1 + a) ++ tag ++ String.mk (chunkAt (rest.drop 1014) a)
          rw [show k + (a + 1) = k + 1 + a from by omega]
          have hc : chunkAt (c :: rest) (a + 1) = chunkAt (rest.drop 1014) a := by
            simp only [chunkAt, eachMax_eq, List.drop_drop]
            rw [show (a + 1) * 1015 = (1014 + a * 1015) + 1 from by omega]
            rw [List.drop_succ_cons]
          rw [hc]
        rw [hmapeq, Nat.add_zero]
        rw [show chunkAt (c :: rest) 0 = c :: rest.take 1014 from by
          simp only [chunkAt, eachMax_eq, Nat.zero_mul, List.drop_zero]
          rw [show (1015 : Nat) = 1014 + 1 from rfl, List.take_succ_cons]]
        apply String.ext
        simp

/-- The wrapped output of the loop starting at `j = 0`. -/
theorem emitChunks_eq_chunkedJoin (tag : String) (maxLine : Nat) (payload : List Char) :
    emitChunks tag maxLine 0 payload = chunkedJoin tag maxLine payload := by
  have h := emitChunks_chunks tag maxLine payload.length payload rfl 0
  rw [Nat.zero_mul] at h
  simp only [Nat.zero_add] at h
  rw [h, chunkedJoin]

/-- With `maxLine > 0` and a nonempty payload, the block does start with the tag. -/
theorem emit_tag_at_start (tag : String) (maxLine : Nat) (payload : List Char)
    (hml : 0 < maxLine) (hp : payload ≠ []) :
    tag.data.isPrefixOf (emitChunks tag maxLine 0 payload).data = true := by
  cases payload with
  | nil => exact absurd rfl hp
  | cons c rest =>
    rw [emit_cons, if_neg (show ¬ ((0 : Nat) = maxLine * eachMax) from by
        rw [eachMax_eq]; intro hcontra; omega), if_pos rfl]
    rw [List.isPrefixOf_iff_prefix]
    exact ⟨[c] ++ (emitChunks tag maxLine (0 + 1) rest).data, by simp⟩

/-- **C4 (counterexample).**  The claim "the very first character of the block
is the tag with no leading line break" fails: with a base64 string shorter than
1015 characters, `max_line = 0` and the very first branch emits `"\r;"` before
the tag, so the block starts with a carriage return. -/
theorem claim_C4_counterexample : ¬ C4Claim := by
  intro hcl
  exact absurd (hcl ext0 img0 400 400 "gimage").2 (by decide)

/-- **C4 (amended).**  The two chunk encoders produce exactly the chunked
decomposition `chunkedJoin`: one tag-headed line per `eachMax = 1015` payload
characters (so no line exceeds 1015 payload characters beyond its tag), with
`"\r;"` before chunk `max_line`, a plain `"\r"` before other chunks, and — only
when `max_line > 0` — no leading line break before the first chunk's tag; when
`max_line = 0` the block instead starts with `"\r;"` before the tag. -/
theorem claim_C4_amended (ext : Externals) (img : QImage) (w h : Nat) (t : String) :
    (parseThumbnailNew ext img w h t
      = chunkedJoin (";" ++ t ++ ":")
          ((pyData1 (newOutputData ext (ext.scaled img w h))).length / eachMax)
          (newPayloadChars (newOutputData ext (ext.scaled img w h)))
        ++ "\r;"
        ++ String.mk (List.replicate
            (((eachMax : Int) - 3
              - (((pyData1 (newOutputData ext (ext.scaled img w h))).length % eachMax : Nat) : Int)
              + 10).toNat) (Char.ofNat 48))
        ++ "\r")
    ∧ (parseThumbnailB64jpg ext img w h t
      = chunkedJoin (";" ++ t ++ ":")
          ((ext.jpegBase64 (ext.scaled img w h)).length / eachMax)
          (ext.jpegBase64 (ext.scaled img w h)).data
        ++ "\r")
    ∧ (∀ (payload : List Char) (k : Nat), (chunkAt payload k).length ≤ eachMax)
    ∧ (∀ (tag : String) (maxLine : Nat) (payload : List Char), 0 < maxLine → payload ≠ [] →
        tag.data.isPrefixOf (emitChunks tag maxLine 0 payload).data = true) := by
  refine ⟨?_, ?_, ?_, fun tag maxLine payload hml hp => emit_tag_at_start tag maxLine payload hml hp⟩
  · simp only [parseThumbnailNew]
    rw [emitChunks_eq_chunkedJoin]
  · simp only [parseThumbnailB64jpg]
    rw [emitChunks_eq_chunkedJoin]
  · intro payload k
    simp only [chunkAt]
    exact List.length_take_le _ _

/-- Witness for the hypotheses of the last part of the amended C4. -/
theorem claim_C4_witness :
    ";x:".data.isPrefixOf (emitChunks ";x:" 2 0 ['a']).data = true :=
  (claim_C4_amended ext0 img0 0 0 "x").2.2.2 ";x:" 2 ['a'] (by decide) (by decide)

set_option maxRecDepth 100000 in
/-- **C9 (counterexample).**  The padding count is *not* computed from the
length of the serialized nonzero-byte payload: for the buffer `[65]` the
payload is one character, for which the claim's formula gives 1021 zeros, but
the code pads with `1022 - len(data1) % 1015 = 1011` zeros, `data1` being the
Python-repr-derived string. -/
theorem claim_C9_counterexample : ¬ C9Claim := by
  intro hcl
  exact absurd (hcl ext0 img0 200 200 "gimage") (by decide)

/-- **C9 (amended).**  The ColPic block ends with `"\r;"`, then exactly
`each_max - 3 - (len(data1) % each_max) + 10` literal `'0'` characters — where
`data1` is the repr-derived string of `_parse_thumbnail_new` (`pyData1`), not
the nonzero-byte payload — then a single trailing `"\r"`. -/
theorem claim_C9_amended (ext : Externals) (img : QImage) (w h : Nat) (t : String) :
    parseThumbnailNew ext img w h t
      = emitChunks (";" ++ t ++ ":")
          ((pyData1 (newOutputData ext (ext.scaled img w h))).length / eachMax) 0
          (newPayloadChars (newOutputData ext (ext.scaled img w h)))
        ++ "\r;"
        ++ String.mk (List.replicate
            (eachMax + 10 - 3 - ((pyData1 (newOutputData ext (ext.scaled img w h))).length % eachMax))
            (Char.ofNat 48))
        ++ "\r" := by
  simp only [parseThumbnailNew]
  rw [show ((eachMax : Int) - 3
        - (((pyData1 (newOutputData ext (ext.scaled img w h))).length % eachMax : Nat) : Int)
        + 10).toNat
      = eachMax + 10 - 3 - ((pyData1 (newOutputData ext (ext.scaled img w h))).length % eachMax) from by
    simp only [eachMax_eq]
    omega]

/-! ### The PrusaSlicer → CensoredSlicer replacement (C1, C8) -/

theorem censorAux_cons (fuel : Nat) (c : Char) (rest : List Char) :
    censorAux (fuel + 1) (c :: rest)
      = if slicerPat.isPrefixOf (c :: rest) then
          slicerRepl ++ censorAux fuel ((c :: rest).drop slicerPat.length)
        else c :: censorAux fuel rest := rfl

theorem infixCheck_cons (p : List Char) (c : Char) (rest : List Char) :
    infixCheck p (c :: rest) = (p.isPrefixOf (c :: rest) || infixCheck p rest) := rfl

/-- Python's `pat in s` test agrees with the infix relation. -/
theorem infixCheck_iff (p : List Char) : ∀ l, infixCheck p l = true ↔ p <:+: l := by
  intro l
  induction l with
  | nil =>
    show (p.isEmpty = true) ↔ p <:+: []
    rw [List.isEmpty_iff, List.infix_nil]
  | cons c rest ih =>
    rw [infixCheck_cons, Bool.or_eq_true, List.isPrefixOf_iff_prefix, ih, List.infix_cons_iff]

/-- A string with no `PrusaSlicer` occurrence is left unchanged by the replacement. -/
theorem censorAux_id : ∀ (fuel : Nat) (l : List Char),
    infixCheck slicerPat l = false → censorAux fuel l = l := by
  intro fuel
  induction fuel with
  | zero => intro l _; rfl
  | succ fuel ih =>
    intro l h
    cases l with
    | nil => rfl
    | cons c rest =>
      rw [infixCheck_cons, Bool.or_eq_false_iff] at h
      rw [censorAux_cons, if_neg (by rw [h.1]; simp), ih rest h.2]

theorem censorSlicer_id (l : List Char) (h : infixCheck slicerPat l = false) :
    censorSlicer l = l :=
  censorAux_id l.length l h

/-- A prefix avoiding `'P'` survives the replacement: no occurrence of the
pattern (which starts with `'P'`) can begin inside it. -/
theorem censor_keeps_pre : ∀ (fuel : Nat) (p l : List Char),
    'P' ∉ p → p <+: l → p <+: censorAux fuel l := by
  intro fuel
  induction fuel with
  | zero => intro p l _ h; exact h
  | succ fuel ih =>
    intro p l hP hpre
    cases l with
    | nil =>
      rw [show censorAux (fuel + 1) ([] : List Char) = [] from rfl]
      exact hpre
    | cons c rest =>
      rw [censorAux_cons]
      by_cases hm : slicerPat.isPrefixOf (c :: rest) = true
      · rw [if_pos hm]
        cases p with
        | nil => exact List.nil_prefix
        | cons a p' =>
          rw [List.isPrefixOf_iff_prefix] at hm
          rw [show slicerPat = 'P' :: "rusaSlicer".data from rfl] at hm
          have hc : c = 'P' := (List.cons_prefix_cons.mp hm).1.symm
          have ha : a = c := (List.cons_prefix_cons.mp hpre).1
          have haP : a = 'P' := by rw [ha, hc]
          subst haP
          exact absurd (List.mem_cons_self _ _) hP
      · rw [if_neg hm]
        cases p with
        | nil => exact List.nil_prefix
        | cons a p' =>
          rcases List.cons_prefix_cons.mp hpre with ⟨ha, hp'⟩
          have hP' : 'P' ∉ p' := fun hmem => hP (List.mem_cons_of_mem _ hmem)
          exact List.cons_prefix_cons.mpr ⟨ha, ih p' rest hP' hp'⟩

/-- An infix occurrence of a marker starting with `';'` (and avoiding `'P'`)
survives the replacement: it can neither begin inside a replaced occurrence
(`';' ∉ "PrusaSlicer"`) nor have a replacement begin inside it
(`'P'` is not among its characters). -/
theorem censor_keeps_marker : ∀ (fuel : Nat) (l mt : List Char), l.length ≤ fuel →
    'P' ∉ (';' :: mt) → (';' :: mt) <:+: l → (';' :: mt) <:+: censorAux fuel l := by
  intro fuel
  induction fuel using Nat.strong_induction_on with
  | _ fuel ih =>
    intro l mt hlen hP hinf
    cases l with
    | nil =>
      rw [List.infix_nil] at hinf
      exact absurd hinf (by simp)
    | cons c rest =>
      cases fuel with
      | zero => simp at hlen
      | succ fuel' =>
        rw [censorAux_cons]
        by_cases hm : slicerPat.isPrefixOf (c :: rest) = true
        · rw [if_pos hm]
          rw [List.isPrefixOf_iff_prefix] at hm
          obtain ⟨s, t, hst⟩ := hinf
          rw [List.append_assoc] at hst
          by_cases hs : s.length < slicerPat.length
          · exfalso
            have h1 : (c :: rest)[s.length]? = some ';' := by
              rw [← hst, List.getElem?_append_right (Nat.le_refl s.length)]
              simp
            have h2 : (c :: rest)[s.length]? = slicerPat[s.length]? := by
              obtain ⟨u, hu⟩ := hm
              rw [← hu, List.getElem?_append_left hs]
            rw [h1] at h2
            obtain ⟨hlt, hget⟩ := List.getElem?_eq_some_iff.mp h2.symm
            have : (';' : Char) ∈ slicerPat := hget ▸ List.getElem_mem hlt
            exact absurd this (by decide)
          · have hsp : s <+: c :: rest := ⟨(';' :: mt) ++ t, hst⟩
            have hps : slicerPat <+: s :=
              List.prefix_of_prefix_length_le hm hsp (by omega)
            obtain ⟨s', hs'⟩ := hps
            have hdrop : (c :: rest).drop slicerPat.length = s' ++ ((';' :: mt) ++ t) := by
              rw [← hst, ← hs', List.append_assoc, List.drop_left]
            have hlen' : ((c :: rest).drop slicerPat.length).length ≤ fuel' := by
              rw [List.length_drop]
              have h11 : slicerPat.length = 11 := rfl
              have hcl : (c :: rest).length = rest.length + 1 := rfl
              have hlen11 : slicerPat.length ≤ (c :: rest).length := hm.length_le
              omega
            have hrec := ih fuel' (Nat.lt_succ_self fuel') ((c :: rest).drop slicerPat.length)
              mt hlen' hP (by rw [hdrop, ← List.append_assoc]; exact ⟨s', t, rfl⟩)
            obtain ⟨u, v, huv⟩ := hrec
            exact ⟨slicerRepl ++ u, v, by rw [← huv]; simp⟩
        · rw [if_neg hm]
          rcases List.infix_cons_iff.mp hinf with hpre | htail
          · have h := censor_keeps_pre (fuel' + 1) (';' :: mt) (c :: rest) hP hpre
            rw [censorAux_cons, if_neg hm] at h
            exact h.isInfix
          · have hlen' : rest.length ≤ fuel' := by
              have hcl : (c :: rest).length = rest.length + 1 := rfl
              omega
            obtain ⟨u, v, huv⟩ := ih fuel' (Nat.lt_succ_self fuel') rest mt hlen' hP htail
            exact ⟨c :: u, v, by rw [← huv]; simp⟩

/-- **C8 (counterexample).**  Injection rewrites `PrusaSlicer` to
`CensoredSlicer` in the stream content, so the content after the prefix is not
always the original. -/
theorem claim_C8_counterexample : ¬ C8Claim := by
  intro hcl
  exact absurd (hcl ";x" "PrusaSlicer" (by decide) (by decide)) (by decide)

/-- **C8 (amended).**  When injection proceeds, everything after the generated
prefix is the original stream content with every occurrence of `PrusaSlicer`
replaced by `CensoredSlicer`; in particular it is exactly the original content
whenever the original contains no `PrusaSlicer`. -/
theorem claim_C8_amended (pre c : String)
    (h1 : infixCheck ";gimage:".data (censorSlicer c.data) = false)
    (h2 : infixCheck ";simage:".data (censorSlicer c.data) = false) :
    addThumbnailPrefix pre c = pre ++ String.mk (censorSlicer c.data)
    ∧ (infixCheck slicerPat c.data = false → addThumbnailPrefix pre c = pre ++ c) := by
  have hw : addThumbnailPrefix pre c = pre ++ String.mk (censorSlicer c.data) := by
    simp only [addThumbnailPrefix]
    rw [if_pos ⟨h1, h2⟩]
  refine ⟨hw, fun hid => ?_⟩
  rw [hw, censorSlicer_id c.data hid]

/-- Witness for the amended C8 at concrete contents. -/
theorem claim_C8_witness :
    addThumbnailPrefix ";p" "aPrusaSlicerb" = ";p" ++ String.mk (censorSlicer "aPrusaSlicerb".data)
    ∧ addThumbnailPrefix ";p" "G1 X0" = ";p" ++ "G1 X0" :=
  ⟨(claim_C8_amended ";p" "aPrusaSlicerb" (by decide) (by decide)).1,
   (claim_C8_amended ";p" "G1 X0" (by decide) (by decide)).2 (by decide)⟩

/-! ### The Legacy prefix layout (C3) -/

theorem parseOld_simage (ext : Externals) (thumb : QImage) (w h : Nat) :
    parseThumbnailOld ext thumb w h "simage" = ";simage:" ++ oldRows (ext.scaled thumb w h) := by
  simp only [parseThumbnailOld]
  rw [show (";" ++ "simage" ++ ":") = ";simage:" from rfl]

theorem parseOld_gimage (ext : Externals) (thumb : QImage) (w h : Nat) :
    parseThumbnailOld ext thumb w h ";gimage" = ";;gimage:" ++ oldRows (ext.scaled thumb w h) := by
  simp only [parseThumbnailOld]
  rw [show (";" ++ ";gimage" ++ ":") = ";;gimage:" from rfl]

/-- **C3 (counterexample).**  The second Legacy block is tagged `";;gimage:"`
(the source passes the name `";gimage"`, and the encoder prepends another
semicolon and appends the colon), so its tag is not exactly `";gimage:"`. -/
theorem claim_C3_counterexample : ¬ C3Claim := by
  intro hcl
  exact absurd (hcl ext0 img0 "NEPTUNE2" (by decide)).2.2 (by decide)

/-- **C3 (amended).**  For a Legacy-group model the prefix is exactly the
100×100 block, then the 200×200 block, then the identification comment; the
first block starts with the tag `";simage:"` and the second block starts with
the tag `";;gimage:"` (two semicolons, from the `";gimage"` argument). -/
theorem claim_C3_amended (ext : Externals) (thumb : QImage) (m : String)
    (hm : m ∈ OLD_MODELS) :
    generateGcodePrefix ext m thumb
      = parseThumbnailOld ext thumb 100 100 "simage"
          ++ parseThumbnailOld ext thumb 200 200 ";gimage" ++ idComment
    ∧ ";simage:".data.isPrefixOf (parseThumbnailOld ext thumb 100 100 "simage").data = true
    ∧ ";;gimage:".data.isPrefixOf (parseThumbnailOld ext thumb 200 200 ";gimage").data = true := by
  have hne : parseThumbnailOld ext thumb 100 100 "simage"
      ++ parseThumbnailOld ext thumb 200 200 ";gimage" ≠ "" := by
    intro hcontra
    have hd := congrArg String.data hcontra
    rw [parseOld_simage] at hd
    simp only [String.data_append, data_empty, List.append_eq_nil] at hd
    exact (by decide : (";simage:".data : List Char) ≠ []) hd.1.1
  refine ⟨?_, ?_, ?_⟩
  · simp only [generateGcodePrefix]
    rw [if_pos hm, if_pos hne]
  · rw [parseOld_simage, List.isPrefixOf_iff_prefix]
    exact ⟨(oldRows (ext.scaled thumb 100 100)).data, by simp⟩
  · rw [parseOld_gimage, List.isPrefixOf_iff_prefix]
    exact ⟨(oldRows (ext.scaled thumb 200 200)).data, by simp⟩

/-- Witness for the amended C3 at a concrete Legacy model. -/
theorem claim_C3_witness :
    generateGcodePrefix ext0 "NEPTUNE2" img0
      = parseThumbnailOld ext0 img0 100 100 "simage"
          ++ parseThumbnailOld ext0 img0 200 200 ";gimage" ++ idComment :=
  (claim_C3_amended ext0 img0 "NEPTUNE2" (by decide)).1

/-! ### Thumbnail extraction and model resolution (C2, C7, C10) -/

instance : DecidableEq (Except ScriptErr String) := fun a b =>
  match a, b with
  | .ok x, .ok y =>
    if h : x = y then isTrue (h ▸ rfl) else isFalse (fun hc => h (Except.ok.inj hc))
  | .ok _, .error _ => isFalse (fun hc => Except.noConfusion hc)
  | .error _, .ok _ => isFalse (fun hc => Except.noConfusion hc)
  | .error x, .error y =>
    if h : x = y then isTrue (h ▸ rfl) else isFalse (fun hc => h (Except.error.inj hc))

theorem getB64Go_cons (found : Bool) (acc line : List Char) (rest : List (List Char)) :
    getB64Go found acc (line :: rest)
      = if found = false ∧ beginMarker.isPrefixOf line then getB64Go true acc rest
        else if found = true ∧ line = endMarker then some acc
        else if found = true then getB64Go true (acc ++ line.drop 2) rest
        else getB64Go false acc rest := rfl

/-- Lines before the first opener are skipped without any other effect. -/
theorem getB64Go_skip : ∀ (A rest : List (List Char)) (acc : List Char),
    (∀ l ∈ A, beginMarker.isPrefixOf l = false) →
    getB64Go false acc (A ++ rest) = getB64Go false acc rest := by
  intro A
  induction A with
  | nil => intro rest acc _; rfl
  | cons a A ih =>
    intro rest acc hA
    rw [List.cons_append, getB64Go_cons]
    rw [if_neg (show ¬ ((false = false) ∧ beginMarker.isPrefixOf a = true) from by
      intro hcond
      have ha := hA a (List.mem_cons_self _ _)
      rw [ha] at hcond
      exact Bool.false_ne_true hcond.2)]
    rw [if_neg (show ¬ ((false = true) ∧ a = endMarker) from
      fun hcond => Bool.false_ne_true hcond.1)]
    rw [if_neg Bool.false_ne_true]
    exact ih rest acc (fun l hl => hA l (List.mem_cons_of_mem _ hl))

/-- Any line whose text starts with the begin marker opens the block. -/
theorem getB64Go_open (line : List Char) (rest : List (List Char)) (acc : List Char)
    (h : beginMarker.isPrefixOf line = true) :
    getB64Go false acc (line :: rest) = getB64Go true acc rest := by
  rw [getB64Go_cons, if_pos ⟨rfl, h⟩]

/-- Once open, the lines before the first end-marker line contribute their
content from offset 2, and the accumulator is returned at the end marker. -/
theorem getB64Go_accum : ∀ (C D : List (List Char)) (acc : List Char),
    endMarker ∉ C →
    getB64Go true acc (C ++ endMarker :: D)
      = some (acc ++ (C.map (fun l => l.drop 2)).flatten) := by
  intro C
  induction C with
  | nil =>
    intro D acc _
    rw [List.nil_append, getB64Go_cons]
    rw [if_neg (show ¬ ((true = false) ∧ beginMarker.isPrefixOf endMarker = true) from
      fun hcond => absurd hcond.1 (by decide))]
    rw [if_pos ⟨rfl, rfl⟩]
    simp
  | cons l C ih =>
    intro D acc hC
    rw [List.cons_append, getB64Go_cons]
    rw [if_neg (show ¬ ((true = false) ∧ beginMarker.isPrefixOf l = true) from
      fun hcond => absurd hcond.1 (by decide))]
    rw [if_neg (show ¬ ((true = true) ∧ l = endMarker) from
      fun hcond => hC (hcond.2 ▸ List.mem_cons_self _ _))]
    rw [if_pos rfl]
    rw [ih D (acc ++ l.drop 2) (fun hmem => hC (List.mem_cons_of_mem _ hmem))]
    simp

/-- If no line opens a block, the scan is exhausted and extraction fails. -/
theorem getB64Go_none (lines : List (List Char)) (acc : List Char)
    (h : ∀ l ∈ lines, beginMarker.isPrefixOf l = false) :
    getB64Go false acc lines = none := by
  have hs := getB64Go_skip lines [] acc h
  rw [List.append_nil] at hs
  rw [hs]
  rfl

theorem getPrinterModel_cons (line : List Char) (rest : List (List Char)) :
    getPrinterModel (line :: rest)
      = if printerModelPre.isPrefixOf line then Except.ok (line.drop printerModelPre.length)
        else getPrinterModel rest := rfl

/-- The model scan fails exactly when no line carries the declaration. -/
theorem getPrinterModel_error_iff : ∀ (lines : List (List Char)),
    getPrinterModel lines = .error .printerModelNotFound
      ↔ ∀ l ∈ lines, printerModelPre.isPrefixOf l = false := by
  intro lines
  induction lines with
  | nil =>
    exact ⟨fun _ l hl => absurd hl (List.not_mem_nil l), fun _ => rfl⟩
  | cons line rest ih =>
    rw [getPrinterModel_cons]
    by_cases h : printerModelPre.isPrefixOf line = true
    · rw [if_pos h]
      constructor
      · intro hcontra; exact Except.noConfusion hcontra
      · intro hall
        have := hall line (List.mem_cons_self _ _)
        rw [h] at this
        exact absurd this (by decide)
    · rw [if_neg h, ih]
      constructor
      · intro hall l hl
        rcases List.mem_cons.mp hl with rfl | hmem
        · cases hb : printerModelPre.isPrefixOf l
          · rfl
          · exact absurd hb h
        · exact hall l hmem
      · intro hall l hl
        exact hall l (List.mem_cons_of_mem _ hl)

/-- **C2 (counterexample).**  An explicit unsupported model override with no
declaration line in the stream *does* make the run fail: the unrecognized
override falls through to the stream scan, which raises the
printer-model-not-found error — contradicting both "the run does not fail" and
"raised only when no explicit model was supplied". -/
theorem claim_C2_counterexample : ¬ C2Claim := by
  intro hcl
  have h := hcl ext0 "FOO" cNoDecl (by decide) (by decide)
  rw [show runScript ext0 "FOO" cNoDecl = Except.error ScriptErr.printerModelNotFound from rfl] at h
  exact Except.noConfusion h

/-- **C2 (amended).**  When the *resolved* model (explicit if recognized,
otherwise the declared one) is unsupported, the run succeeds and leaves the
content unchanged; and the printer-model-not-found error occurs *exactly* in
the runs where a thumbnail block was found, the explicit model is empty or
unrecognized, and the stream has no `"; printer_model = "` line. -/
theorem claim_C2_amended :
    (∀ (ext : Externals) (em c m : String) (b64 : List Char),
       getBase64Thumbnail (pySplitlines c.data) = some b64 →
       resolvePrinterModel em (pySplitlines c.data) = .ok m →
       isSupportedPrinter m = false →
       runScript ext em c = .ok c)
    ∧ (∀ (ext : Externals) (em c : String),
       runScript ext em c = .error .printerModelNotFound
         ↔ ((∃ b64, getBase64Thumbnail (pySplitlines c.data) = some b64)
            ∧ (em = "" ∨ ¬ em ∈ allModels)
            ∧ (∀ l ∈ pySplitlines c.data, printerModelPre.isPrefixOf l = false))) := by
  constructor
  · intro ext em c m b64 hb hres hsupp
    simp [runScript, hb, hres, hsupp]
  · intro ext em c
    constructor
    · intro hrun
      cases hb : getBase64Thumbnail (pySplitlines c.data) with
      | none =>
        exfalso
        rw [show runScript ext em c = .error .thumbnailNotFound from by
          simp only [runScript]; rw [hb]] at hrun
        exact ScriptErr.noConfusion (Except.error.inj hrun)
      | some b64 =>
        cases hres : resolvePrinterModel em (pySplitlines c.data) with
        | error e =>
          have he : e = .printerModelNotFound := by
            rw [show runScript ext em c = .error e from by
              simp only [runScript]; rw [hb, hres]] at hrun
            exact Except.error.inj hrun
          subst he
          simp only [resolvePrinterModel] at hres
          by_cases hc : em ≠ "" ∧ em ∈ allModels
          · rw [if_pos hc] at hres
            exact absurd hres (fun hcontra => Except.noConfusion hcontra)
          · rw [if_neg hc] at hres
            rw [not_and_or] at hc
            refine ⟨⟨b64, rfl⟩, ?_, ?_⟩
            · rcases hc with hc | hc
              · exact Or.inl (not_not.mp hc)
              · exact Or.inr hc
            · cases hg : getPrinterModel (pySplitlines c.data) with
              | ok v =>
                rw [hg] at hres
                exact absurd hres (fun hcontra => Except.noConfusion hcontra)
              | error e' =>
                rw [hg] at hres
                have he' : e' = .printerModelNotFound := Except.error.inj hres
                subst he'
                exact (getPrinterModel_error_iff _).mp hg
        | ok m =>
          exfalso
          rw [show runScript ext em c
              = (if isSupportedPrinter m then
                   Except.ok (addThumbnailPrefix
                     (generateGcodePrefix ext m (ext.loadImage (ext.decodeB64 (String.mk b64)))) c)
                 else Except.ok c) from by
            simp only [runScript]; rw [hb, hres]] at hrun
          by_cases hs : isSupportedPrinter m = true
          · rw [if_pos hs] at hrun; exact Except.noConfusion hrun
          · rw [if_neg hs] at hrun; exact Except.noConfusion hrun
    · rintro ⟨⟨b64, hb⟩, hc, hnd⟩
      have hres : resolvePrinterModel em (pySplitlines c.data)
          = .error .printerModelNotFound := by
        simp only [resolvePrinterModel]
        rw [if_neg (show ¬ (em ≠ "" ∧ em ∈ allModels) from by
          rcases hc with hc | hc
          · intro hcond; exact hcond.1 hc
          · intro hcond; exact hc hcond.2)]
        rw [(getPrinterModel_error_iff _).mpr hnd]
        rfl
      simp only [runScript]
      rw [hb, hres]

/-- Witness for the amended C2: an unrecognized declared model is a silent
skip, the concrete failing run satisfies the error characterization, and
conversely the characterization forces the error on that run. -/
theorem claim_C2_witness :
    runScript ext0 "" cWeird = .ok cWeird
    ∧ ((∃ b64, getBase64Thumbnail (pySplitlines cNoDecl.data) = some b64)
       ∧ (("FOO" : String) = "" ∨ ¬ ("FOO" : String) ∈ allModels)
       ∧ (∀ l ∈ pySplitlines cNoDecl.data, printerModelPre.isPrefixOf l = false))
    ∧ runScript ext0 "FOO" cNoDecl = .error .printerModelNotFound :=
  ⟨claim_C2_amended.1 ext0 "" cWeird "WEIRD" "QUFB".data (by rfl) (by rfl) (by rfl),
   (claim_C2_amended.2 ext0 "FOO" cNoDecl).mp (by rfl),
   (claim_C2_amended.2 ext0 "FOO" cNoDecl).mpr
     ⟨⟨"QUFB".data, by rfl⟩, by decide, by decide⟩⟩

/-- **C7.**  Extraction accumulates `line[2:]` for the lines strictly between
the first line starting with the begin marker and the next line equal to the
end marker (the accumulated base64 string is then decoded externally through
`Externals.decodeB64`/`loadImage`); if the stream is exhausted without such a
block — in particular when no line opens one — the run fails with the
thumbnail-not-found error before any write, leaving the content unchanged. -/
theorem claim_C7_extraction :
    (∀ (ext : Externals) (em c : String),
       (∀ l ∈ pySplitlines c.data, beginMarker.isPrefixOf l = false) →
       runScript ext em c = .error .thumbnailNotFound ∧ runFile ext em c = c)
    ∧ (∀ (ext : Externals) (em c : String),
       getBase64Thumbnail (pySplitlines c.data) = none →
       runScript ext em c = .error .thumbnailNotFound ∧ runFile ext em c = c)
    ∧ (∀ (A : List (List Char)) (o : List Char) (C D : List (List Char)),
       (∀ l ∈ A, beginMarker.isPrefixOf l = false) →
       beginMarker.isPrefixOf o = true →
       endMarker ∉ C →
       getBase64Thumbnail (A ++ o :: (C ++ endMarker :: D))
         = some ((C.map (fun l => l.drop 2)).flatten)) := by
  have herr : ∀ (ext : Externals) (em c : String),
      getBase64Thumbnail (pySplitlines c.data) = none →
      runScript ext em c = .error .thumbnailNotFound ∧ runFile ext em c = c := by
    intro ext em c hb
    have h1 : runScript ext em c = .error .thumbnailNotFound := by
      simp only [runScript]; rw [hb]
    refine ⟨h1, ?_⟩
    simp only [runFile]
    rw [h1]
  refine ⟨fun ext em c hall => herr ext em c (getB64Go_none _ _ hall), herr, ?_⟩
  intro A o C D hA ho hC
  show getB64Go false [] _ = _
  rw [getB64Go_skip A _ [] hA, getB64Go_open o _ [] ho, getB64Go_accum C D [] hC]
  simp

/-- Witness for C7: a stream without any block fails and is left unchanged, and
a concrete well-formed block is accumulated as stated. -/
theorem claim_C7_witness :
    (runScript ext0 "NEPTUNE2" "G1 X0\nG1 X1\n" = .error .thumbnailNotFound
      ∧ runFile ext0 "NEPTUNE2" "G1 X0\nG1 X1\n" = "G1 X0\nG1 X1\n")
    ∧ getBase64Thumbnail ([";hdr".data]
        ++ "; thumbnail begin 600x600 128".data :: ([";;QUFB".data, ";;Qg==".data]
        ++ endMarker :: ["; trailing".data]))
      = some (([";;QUFB".data, ";;Qg==".data].map (fun l => l.drop 2)).flatten) :=
  ⟨claim_C7_extraction.1 ext0 "NEPTUNE2" "G1 X0\nG1 X1\n" (by decide),
   claim_C7_extraction.2.2 [";hdr".data] "; thumbnail begin 600x600 128".data
     [";;QUFB".data, ";;Qg==".data] ["; trailing".data] (by decide) (by decide) (by decide)⟩

/-- **C10.**  Opener recognition is a prefix match (any line starting with
`"; thumbnail begin 600x600"` opens the block, including one declaring
`600x6000`); once open, a later opener-looking line is treated as an ordinary
payload line contributing its content from offset 2; and only the first opened
and closed block matters — everything after the closing line is ignored. -/
theorem claim_C10_marker_matching :
    (∀ (line : List Char) (tail : List (List Char)) (acc : List Char),
       beginMarker.isPrefixOf line = true →
       getB64Go false acc (line :: tail) = getB64Go true acc tail)
    ∧ (∀ (line : List Char) (tail : List (List Char)) (acc : List Char),
       beginMarker.isPrefixOf line = true → line ≠ endMarker →
       getB64Go true acc (line :: tail) = getB64Go true (acc ++ line.drop 2) tail)
    ∧ (∀ (A : List (List Char)) (o : List Char) (C D D' : List (List Char)),
       (∀ l ∈ A, beginMarker.isPrefixOf l = false) →
       beginMarker.isPrefixOf o = true →
       endMarker ∉ C →
       getBase64Thumbnail (A ++ o :: (C ++ endMarker :: D))
         = getBase64Thumbnail (A ++ o :: (C ++ endMarker :: D'))) := by
  refine ⟨getB64Go_open, ?_, ?_⟩
  · intro line tail acc _ hne
    rw [getB64Go_cons]
    rw [if_neg (fun hcond => absurd hcond.1 (by decide))]
    rw [if_neg (fun hcond => hne hcond.2)]
    rw [if_pos rfl]
  · intro A o C D D' hA ho hC
    have hone : ∀ (D0 : List (List Char)),
        getBase64Thumbnail (A ++ o :: (C ++ endMarker :: D0))
          = some ((C.map (fun l => l.drop 2)).flatten) := by
      intro D0
      show getB64Go false [] _ = _
      rw [getB64Go_skip A _ [] hA, getB64Go_open o _ [] ho, getB64Go_accum C D0 [] hC]
      simp
    rw [hone D, hone D']

/-- Witness for C10: a longer-size opener line opens the block, is accumulated
as payload when seen inside an open block, and a second block is ignored. -/
theorem claim_C10_witness :
    getB64Go false [] ("; thumbnail begin 600x6000".data :: [endMarker])
      = getB64Go true [] [endMarker]
    ∧ getB64Go true [] ("; thumbnail begin 600x6000".data :: [endMarker])
      = getB64Go true ([] ++ "; thumbnail begin 600x6000".data.drop 2) [endMarker]
    ∧ getBase64Thumbnail ([] ++ beginMarker :: ([";;QQ==".data]
        ++ endMarker :: [beginMarker, "; second".data]))
      = getBase64Thumbnail ([] ++ beginMarker :: ([";;QQ==".data] ++ endMarker :: [])) :=
  ⟨claim_C10_marker_matching.1 "; thumbnail begin 600x6000".data [endMarker] [] (by decide),
   claim_C10_marker_matching.2.1 "; thumbnail begin 600x6000".data [endMarker] [] (by decide)
     (by decide),
   claim_C10_marker_matching.2.2 [] beginMarker [";;QQ==".data] [beginMarker, "; second".data] []
     (by decide) (by decide) (by decide)⟩

/-! ### Idempotence of injection (C1) -/

theorem infix_ext_right (l A B : List Char) (h : l <:+: A) : l <:+: A ++ B := by
  obtain ⟨s, t, hst⟩ := h
  exact ⟨s, t ++ B, by rw [← hst]; simp⟩

theorem data_ne_nil_of_ne_empty {s : String} (h : s ≠ "") : s.data ≠ [] := fun hd =>
  h (String.ext (hd.trans rfl))

theorem ne_empty_of_infix_ne_nil {p : String} {l : List Char} (hl : l ≠ [])
    (h : l <:+: p.data) : p ≠ "" := by
  intro hc
  rw [hc, show ("" : String).data = [] from rfl, List.infix_nil] at h
  exact hl h

/-- Whatever branch fires at `j = 0`, the tag itself is emitted, so a nonempty
payload always embeds the tag in the block. -/
theorem tag_infix_emit (tag : String) (maxLine : Nat) (c : Char) (rest : List Char) :
    tag.data <:+: (emitChunks tag maxLine 0 (c :: rest)).data := by
  rw [emit_cons]
  by_cases h0 : (0 : Nat) = maxLine * eachMax
  · rw [if_pos h0]
    exact ⟨"\r;".data, [c] ++ (emitChunks tag maxLine (0 + 1) rest).data, by simp⟩
  · rw [if_neg h0, if_pos rfl]
    exact ⟨[], [c] ++ (emitChunks tag maxLine (0 + 1) rest).data, by simp⟩

theorem parseNew_eq (ext : Externals) (img : QImage) (w h : Nat) (t : String) :
    parseThumbnailNew ext img w h t
      = emitChunks (";" ++ t ++ ":")
          ((pyData1 (newOutputData ext (ext.scaled img w h))).length / eachMax) 0
          (newPayloadChars (newOutputData ext (ext.scaled img w h)))
        ++ "\r;"
        ++ String.mk (List.replicate
            (((eachMax : Int) - 3
              - (((pyData1 (newOutputData ext (ext.scaled img w h))).length % eachMax : Nat) : Int)
              + 10).toNat) (Char.ofNat 48))
        ++ "\r" := rfl

theorem parseB64_eq (ext : Externals) (img : QImage) (w h : Nat) (t : String) :
    parseThumbnailB64jpg ext img w h t
      = emitChunks (";" ++ t ++ ":")
          ((ext.jpegBase64 (ext.scaled img w h)).length / eachMax) 0
          (ext.jpegBase64 (ext.scaled img w h)).data
        ++ "\r" := rfl

/-- For every supported model, the generated prefix contains one of the two
markers, provided the external ColPic codec always leaves some nonzero byte in
the buffer and the external JPEG/base64 encoder never returns an empty string
(both true of the real external implementations). -/
theorem marker_in_gen (ext : Externals) (m : String) (thumb : QImage)
    (henc : ∀ a b c d e, (ext.encodeStr a b c d e).filter (fun x => x != 0) ≠ [])
    (hjpg : ∀ i, ext.jpegBase64 i ≠ "")
    (hsupp : isSupportedPrinter m = true) :
    ";gimage:".data <:+: (generateGcodePrefix ext m thumb).data
    ∨ ";simage:".data <:+: (generateGcodePrefix ext m thumb).data := by
  by_cases h1 : m ∈ OLD_MODELS
  · right
    have hin : ";simage:".data <:+: (parseThumbnailOld ext thumb 100 100 "simage"
        ++ parseThumbnailOld ext thumb 200 200 ";gimage").data := by
      rw [String.data_append, parseOld_simage, String.data_append]
      exact infix_ext_right _ _ _ (infix_ext_right _ _ _ List.infix_rfl)
    have hne := ne_empty_of_infix_ne_nil (by decide) hin
    simp only [generateGcodePrefix]
    rw [if_pos h1, if_pos hne, String.data_append]
    exact infix_ext_right _ _ _ hin
  · by_cases h2 : m ∈ NEW_MODELS
    · left
      have hp : newPayloadChars (newOutputData ext (ext.scaled thumb 200 200)) ≠ [] := by
        simp only [newPayloadChars, newOutputData]
        rw [ne_eq, List.map_eq_nil_iff]
        exact henc _ _ _ _ _
      have hin1 : ";gimage:".data <:+: (parseThumbnailNew ext thumb 200 200 "gimage").data := by
        rw [parseNew_eq]
        cases hpc : newPayloadChars (newOutputData ext (ext.scaled thumb 200 200)) with
        | nil => exact absurd hpc hp
        | cons pc prest =>
          simp only [String.data_append]
          exact infix_ext_right _ _ _ (infix_ext_right _ _ _ (infix_ext_right _ _ _
            (tag_infix_emit (";" ++ "gimage" ++ ":")
              ((pyData1 (newOutputData ext (ext.scaled thumb 200 200))).length / eachMax)
              pc prest)))
      have hin : ";gimage:".data <:+: (parseThumbnailNew ext thumb 200 200 "gimage"
          ++ parseThumbnailNew ext thumb 160 160 "simage").data := by
        rw [String.data_append]
        exact infix_ext_right _ _ _ hin1
      have hne := ne_empty_of_infix_ne_nil (by decide) hin
      simp only [generateGcodePrefix]
      rw [if_neg h1, if_pos h2, if_pos hne, String.data_append]
      exact infix_ext_right _ _ _ hin
    · have h3 : m ∈ B64JPG_MODELS := by
        simp only [isSupportedPrinter, Bool.or_eq_true, decide_eq_true_eq] at hsupp
        rcases hsupp with (h | h) | h
        · exact absurd h h1
        · exact absurd h h2
        · exact h
      left
      have hp : (ext.jpegBase64 (ext.scaled thumb 400 400)).data ≠ [] :=
        data_ne_nil_of_ne_empty (hjpg (ext.scaled thumb 400 400))
      have hin1 : ";gimage:".data <:+: (parseThumbnailB64jpg ext thumb 400 400 "gimage").data := by
        rw [parseB64_eq]
        cases hpc : (ext.jpegBase64 (ext.scaled thumb 400 400)).data with
        | nil => exact absurd hpc hp
        | cons pc prest =>
          simp only [String.data_append]
          exact infix_ext_right _ _ _
            (tag_infix_emit (";" ++ "gimage" ++ ":")
              ((ext.jpegBase64 (ext.scaled thumb 400 400)).length / eachMax) pc prest)
      have hin : ";gimage:".data <:+: (parseThumbnailB64jpg ext thumb 400 400 "gimage"
          ++ parseThumbnailB64jpg ext thumb 114 114 "simage").data := by
        rw [String.data_append]
        exact infix_ext_right _ _ _ hin1
      have hne := ne_empty_of_infix_ne_nil (by decide) hin
      simp only [generateGcodePrefix]
      rw [if_neg h1, if_neg h2, if_pos h3, if_pos hne, String.data_append]
      exact infix_ext_right _ _ _ hin

/-- A content that already carries one of the markers is never rewritten. -/
theorem addThumbnailPrefix_fixed (pre c' : String)
    (h : infixCheck ";gimage:".data c'.data = true ∨ infixCheck ";simage:".data c'.data = true) :
    addThumbnailPrefix pre c' = c' := by
  simp only [addThumbnailPrefix, data_mk]
  rw [if_neg (show ¬ (infixCheck ";gimage:".data (censorSlicer c'.data) = false
      ∧ infixCheck ";simage:".data (censorSlicer c'.data) = false) from by
    rcases h with h | h
    · intro hcond
      have hkeep : ";gimage:".data <:+: censorSlicer c'.data :=
        censor_keeps_marker c'.data.length c'.data "gimage:".data (Nat.le_refl _)
          (by decide) ((infixCheck_iff _ _).mp h)
      have h1 : infixCheck ";gimage:".data (censorSlicer c'.data) = true :=
        (infixCheck_iff _ _).mpr hkeep
      exact Bool.false_ne_true (hcond.1.symm.trans h1)
    · intro hcond
      have hkeep : ";simage:".data <:+: censorSlicer c'.data :=
        censor_keeps_marker c'.data.length c'.data "simage:".data (Nat.le_refl _)
          (by decide) ((infixCheck_iff _ _).mp h)
      have h1 : infixCheck ";simage:".data (censorSlicer c'.data) = true :=
        (infixCheck_iff _ _).mpr hkeep
      exact Bool.false_ne_true (hcond.2.symm.trans h1))]

/-- A file whose content carries a marker is a fixed point of the whole run. -/
theorem runFile_fixed (ext : Externals) (em f : String)
    (h : infixCheck ";gimage:".data f.data = true ∨ infixCheck ";simage:".data f.data = true) :
    runFile ext em f = f := by
  have hadd : ∀ pre, addThumbnailPrefix pre f = f := fun pre => addThumbnailPrefix_fixed pre f h
  simp only [runFile]
  cases hb : getBase64Thumbnail (pySplitlines f.data) with
  | none => simp [runScript, hb]
  | some b64 =>
    cases hres : resolvePrinterModel em (pySplitlines f.data) with
    | error e => simp [runScript, hb, hres]
    | ok m =>
      cases hs : isSupportedPrinter m with
      | false => simp [runScript, hb, hres, hs]
      | true => simp [runScript, hb, hres, hs, hadd]

/-- Every successful run either leaves the content alone or writes
`add_thumbnail_prefix` of a generated prefix for a supported model. -/
theorem runScript_ok_cases (ext : Externals) (em c s : String)
    (h : runScript ext em c = .ok s) :
    s = c ∨ ∃ (m : String) (b64 : List Char), isSupportedPrinter m = true
      ∧ s = addThumbnailPrefix
          (generateGcodePrefix ext m (ext.loadImage (ext.decodeB64 (String.mk b64)))) c := by
  cases hb : getBase64Thumbnail (pySplitlines c.data) with
  | none =>
    rw [show runScript ext em c = .error .thumbnailNotFound from by
      simp only [runScript]; rw [hb]] at h
    exact Except.noConfusion h
  | some b64 =>
    cases hres : resolvePrinterModel em (pySplitlines c.data) with
    | error e =>
      rw [show runScript ext em c = .error e from by
        simp only [runScript]; rw [hb, hres]] at h
      exact Except.noConfusion h
    | ok m =>
      cases hs : isSupportedPrinter m with
      | true =>
        refine Or.inr ⟨m, b64, hs, ?_⟩
        rw [show runScript ext em c = .ok (addThumbnailPrefix
            (generateGcodePrefix ext m (ext.loadImage (ext.decodeB64 (String.mk b64)))) c) from by
          simp [runScript, hb, hres, hs]] at h
        exact (Except.ok.inj h).symm
      | false =>
        refine Or.inl ?_
        rw [show runScript ext em c = .ok c from by simp [runScript, hb, hres, hs]] at h
        exact (Except.ok.inj h).symm

/-- **C1.**  Running the injection twice produces the same file as running it
once, and whenever `";gimage:"` or `";simage:"` is already present in the
stream content the injector performs no write and leaves the file unchanged.
The idempotence holds under two facts about the external capabilities that the
real external implementations satisfy: the ColPic codec always leaves a
nonzero byte in its output buffer, and the JPEG/base64 encoding of an image is
never the empty string (they guarantee a marker in every generated prefix). -/
theorem claim_C1_injection_idempotent (ext : Externals) (em c : String)
    (henc : ∀ a b c' d e, (ext.encodeStr a b c' d e).filter (fun x => x != 0) ≠ [])
    (hjpg : ∀ i, ext.jpegBase64 i ≠ "") :
    runFile ext em (runFile ext em c) = runFile ext em c
    ∧ (∀ (pre c' : String),
        infixCheck ";gimage:".data c'.data = true ∨ infixCheck ";simage:".data c'.data = true →
        addThumbnailPrefix pre c' = c') := by
  refine ⟨?_, fun pre c' h => addThumbnailPrefix_fixed pre c' h⟩
  cases hr : runScript ext em c with
  | error e =>
    have hf : runFile ext em c = c := by simp [runFile, hr]
    rw [hf]
    exact hf
  | ok s =>
    have hf : runFile ext em c = s := by simp [runFile, hr]
    rcases runScript_ok_cases ext em c s hr with hs | ⟨m, b64, hsupp, hadd⟩
    · rw [hs] at hf
      rw [hf]
      exact hf
    · by_cases hg : infixCheck ";gimage:".data (censorSlicer c.data) = false
          ∧ infixCheck ";simage:".data (censorSlicer c.data) = false
      · have hs2 : s = generateGcodePrefix ext m (ext.loadImage (ext.decodeB64 (String.mk b64)))
            ++ String.mk (censorSlicer c.data) := by
          rw [hadd]
          simp only [addThumbnailPrefix, data_mk]
          rw [if_pos hg]
        have hmark := marker_in_gen ext m (ext.loadImage (ext.decodeB64 (String.mk b64)))
          henc hjpg hsupp
        have hmarks : infixCheck ";gimage:".data s.data = true
            ∨ infixCheck ";simage:".data s.data = true := by
          rcases hmark with hm1 | hm1
          · refine Or.inl ?_
            rw [hs2, String.data_append]
            exact (infixCheck_iff _ _).mpr (infix_ext_right _ _ _ hm1)
          · refine Or.inr ?_
            rw [hs2, String.data_append]
            exact (infixCheck_iff _ _).mpr (infix_ext_right _ _ _ hm1)
        rw [hf]
        exact runFile_fixed ext em s hmarks
      · have hs2 : s = c := by
          rw [hadd]
          simp only [addThumbnailPrefix, data_mk]
          rw [if_neg hg]
        rw [hs2] at hf
        rw [hf]
        exact hf

/-- Witness for C1 with concrete externals (nonzero codec byte, nonempty JPEG
string) and a concrete stream carrying a marker. -/
theorem claim_C1_witness :
    runFile ext0 "X" (runFile ext0 "X" "G1 X0\n") = runFile ext0 "X" "G1 X0\n"
    ∧ addThumbnailPrefix "PRE" ";simage:payload" = ";simage:payload" := by
  have henc0 : ∀ (a : List Nat) (b c d e : Nat),
      (ext0.encodeStr a b c d e).filter (fun x => x != 0) ≠ [] := fun _ _ _ _ _ => by
    show ([65] : List Nat).filter (fun x => x != 0) ≠ []
    decide
  have hjpg0 : ∀ i, ext0.jpegBase64 i ≠ "" := fun _ => by
    show ("A" : String) ≠ ""
    decide
  exact ⟨(claim_C1_injection_idempotent ext0 "X" "G1 X0\n" henc0 hjpg0).1,
    (claim_C1_injection_idempotent ext0 "X" "G1 X0\n" henc0 hjpg0).2 "PRE" ";simage:payload"
      (by decide)⟩

end ENT
